import Mathlib

/-!
Verification of the mission-lifecycle controller
(`src/helpers/MissionController.py` of geoclaw-azure-launcher).

The Python class `MissionController` orchestrates an Azure Batch pool, an
Azure Blob container and an in-memory "ledger" (`uploaded_dirs`, a dict from
case base name to the parent directory of the staged case directory).  The
remote services are external capabilities; we embed the controller's own
control flow faithfully and treat backend responses (pool allocation states,
container-creation outcomes, blob-upload faults) as explicit parameters.

Paths and blob names are modelled as lists of path segments (`os.path` joins,
`basename`, `dirname`, and `relpath` are segment operations); Python dicts
and the blob store are modelled as association lists with insert-or-replace
update; `pickle.dumps`/`pickle.loads` round-tripping is modelled by storing
the serialized ledger as a dedicated constructor of blob data.
-/

/-- Segmented file-system path (absolute or relative). -/
abbrev FPath := List String

/-- Segmented blob name, e.g. `["case", "sub", "b.txt"]` for `case/sub/b.txt`. -/
abbrev BlobName := List String

/-- The `uploaded_dirs` dict: case base name to the parent directory of the
case directory, in insertion order (Python dicts preserve insertion order). -/
abbrev Ledger := List (String × FPath)

/-- Association-list lookup (first binding wins; dict keys are unique). -/
def alookup {κ β : Type} [DecidableEq κ] : List (κ × β) → κ → Option β
  | [], _ => none
  | e :: rest, k => if e.1 = k then some e.2 else alookup rest k

/-- Association-list insert-or-replace: replaces the first binding of the key
in place, otherwise appends; this is Python dict assignment and also the
semantics of (re-)uploading a blob under an existing name. -/
def upsert {κ β : Type} [DecidableEq κ] : List (κ × β) → κ → β → List (κ × β)
  | [], k, v => [(k, v)]
  | e :: rest, k, v => if e.1 = k then (k, v) :: rest else e :: upsert rest k v

/-- Association-list removal of a key: Python `del d[k]` / blob deletion. -/
def removeKey {κ β : Type} [DecidableEq κ] : List (κ × β) → κ → List (κ × β)
  | [], _ => []
  | e :: rest, k => if e.1 = k then removeKey rest k else e :: removeKey rest k

/-! ### Pool lifecycle (`MissionController._create_pool`) -/

/-- Azure Batch pool allocation states (`azure.batch.models.AllocationState`). -/
inductive AllocationState : Type
  | steady
  | resizing
  | stopping
deriving DecidableEq, Repr

/-- The slice of `azure.batch.models.CloudPool` the controller reads. -/
structure PoolInfo : Type where
  targetDedicatedNodes : Nat
  allocationState : AllocationState
deriving DecidableEq, Repr

/-- The slice of the `MissionInfo` object `_create_pool` reads. -/
structure MissionInfo : Type where
  poolName : String
  jobName : String
  containerName : String
  nNodes : Nat
  vmType : String
deriving DecidableEq, Repr

/-- Requests/observations the controller issues against the Batch service. -/
inductive PoolEvent : Type
  | createPool (target : Nat)
  | getPool (observed : AllocationState)
  | stopResize
  | sleep (secs : Nat)
  | resizePool (target : Nat) (deallocationOption : String)
deriving DecidableEq, Repr

/-- Batch-service backend as the controller observes it: the mission's pool
(if any), the allocation state a freshly created pool reports, and the
successive allocation states `pool.get` returns inside the wait loop. -/
structure PoolBackend : Type where
  pool : Option PoolInfo
  allocAfterCreate : AllocationState
  polls : List AllocationState
deriving DecidableEq, Repr

/-- The wait loop of `_create_pool`:
`while pool_info.allocation_state is not pool_steady: time.sleep(2); pool_info = get(...)`.
Returns the events, the final observed state, and the unconsumed poll
responses; `none` models the loop running out of backend responses
(i.e. the pool never reports steady and the loop never terminates). -/
def waitSteady : List AllocationState → AllocationState →
    Option (List PoolEvent × AllocationState × List AllocationState)
  | polls, cur =>
    if cur = .steady then some ([], .steady, polls)
    else
      match polls with
      | [] => none
      | s :: rest =>
        (waitSteady rest s).map
          (fun r => (.sleep 2 :: .getPool s :: r.1, r.2.1, r.2.2))

/-- `MissionController._create_pool`.  If the pool exists, compare its target
node count with the descriptor; on mismatch, stop an in-flight resize and
poll until steady, then issue one resize with deallocation option
`"requeue"`.  If the pool does not exist, issue one creation request with
the descriptor's node count.  Returns the issued events and the resulting
backend state, or `none` when the wait loop never sees a steady state. -/
def create_pool (info : MissionInfo) (be : PoolBackend) :
    Option (List PoolEvent × PoolBackend) :=
  match be.pool with
  | some pi =>
    if pi.targetDedicatedNodes = info.nNodes then
      some ([.getPool pi.allocationState], be)
    else
      if pi.allocationState = .resizing then
        match waitSteady be.polls pi.allocationState with
        | none => none
        | some (w, _, rem) =>
          some (.getPool pi.allocationState :: .stopResize ::
                  (w ++ [.resizePool info.nNodes "requeue"]),
                { be with pool := some ⟨info.nNodes, .resizing⟩, polls := rem })
      else
        some ([.getPool pi.allocationState, .resizePool info.nNodes "requeue"],
              { be with pool := some ⟨info.nNodes, .resizing⟩ })
  | none =>
    some ([.createPool info.nNodes],
          { be with pool := some ⟨info.nNodes, be.allocAfterCreate⟩ })

/-- Number of pool-creation requests in an event list. -/
def countCreate (ev : List PoolEvent) : Nat :=
  (ev.filter (fun e => match e with | .createPool _ => true | _ => false)).length

/-- Number of pool-resize requests in an event list. -/
def countResize (ev : List PoolEvent) : Nat :=
  (ev.filter (fun e => match e with | .resizePool _ _ => true | _ => false)).length

/-! ### Storage model shared by container and directory operations -/

/-- The blob name of the persisted ledger, `"uploaded_dirs.dat"`. -/
def ledgerBlobName : BlobName := ["uploaded_dirs.dat"]

/-- Content of a blob: either ordinary file bytes (modelled as a string) or
the pickled ledger (`pickle.dumps`/`pickle.loads` round-trip is modelled by
storing the ledger value itself). -/
inductive BlobData : Type
  | file (content : String)
  | pickledLedger (m : Ledger)
deriving DecidableEq, Repr

/-- Controller-instance state the directory operations touch:
`self.container_token`, `self.container_url`, `self.uploaded_dirs`. -/
structure CtrlState : Type where
  containerToken : Option String
  containerUrl : Option String
  uploadedDirs : Ledger
deriving DecidableEq, Repr

/-- The mission container's blob store. -/
structure StorageState : Type where
  blobs : List (BlobName × BlobData)
deriving DecidableEq, Repr

/-- Local filesystem slice the controller writes: the scratch serialization
file `uploaded_dirs.dat` and the files written by downloads. -/
structure LocalFS : Type where
  scratch : Option Ledger
  files : List (FPath × BlobData)
deriving DecidableEq, Repr

/-- A local case directory to stage: its parent directory
(`os.path.dirname(dir_path)`), its base name (`os.path.basename(dir_path)`),
and the files `os.walk` enumerates, as paths relative to the case directory
(each nonempty) with their contents. -/
structure LocalDir : Type where
  parent : FPath
  base : String
  files : List (FPath × String)
deriving DecidableEq, Repr

/-- Does a blob name fall under the prefix `"{base}/"`?  In the segment
model: first segment equals `base` and there is at least one more segment. -/
def underCasePrefix (base : String) (n : BlobName) : Bool :=
  match n with
  | [] => false
  | b :: rest => b = base && !rest.isEmpty

/-- `list_blobs(container, prefix="{base}/", num_results=50000)`:
all blobs under the prefix, capped at 50000 results. -/
def listBlobs (stor : StorageState) (base : String) : List (BlobName × BlobData) :=
  (stor.blobs.filter (fun b => underCasePrefix base b.1)).take 50000

/-- Errors raised by the directory operations. -/
inductive MCErr : Type
  | duplicateCase (base : String)
  | assertionError
  | notFound
  | blobUploadError (n : BlobName)
deriving DecidableEq, Repr

/-- Result of a directory operation: the raised error (if any) together with
the controller, blob-store and local-filesystem states at the moment the
operation returned or the exception propagated (Python exceptions do not
roll back the mutations already performed). -/
structure OpResult : Type where
  err : Option MCErr
  ctrl : CtrlState
  stor : StorageState
  loc : LocalFS
deriving DecidableEq, Repr

/-- The upload loop of `_upload_dir`: upload each file in order under its
blob name; a backend fault on some blob name (`fail`) raises there, keeping
the blobs uploaded so far. -/
def uploadFiles (fail : BlobName → Bool) (stor : StorageState) :
    List (BlobName × String) → StorageState × Option MCErr
  | [] => (stor, none)
  | (n, c) :: rest =>
    if fail n then (stor, some (.blobUploadError n))
    else uploadFiles fail ⟨upsert stor.blobs n (.file c)⟩ rest

/-- `MissionController._upload_dir`.  Order of operations, as in the source:
duplicate-base-name check against the ledger, then the container-session
assertions, then the file-upload walk (blob name = path of the file relative
to the parent of the case directory, i.e. `base :: rel`), then the in-memory
ledger insertion, then serialization to the local scratch file, then the
upload of the ledger blob, then removal of the scratch file. -/
def upload_dir (fail : BlobName → Bool) (ctrl : CtrlState) (stor : StorageState)
    (loc : LocalFS) (d : LocalDir) : OpResult :=
  if (alookup ctrl.uploadedDirs d.base).isSome then
    ⟨some (.duplicateCase d.base), ctrl, stor, loc⟩
  else if ctrl.containerUrl = none then ⟨some .assertionError, ctrl, stor, loc⟩
  else if ctrl.containerToken = none then ⟨some .assertionError, ctrl, stor, loc⟩
  else
    let entries := d.files.map (fun e => (d.base :: e.1, e.2))
    match uploadFiles fail stor entries with
    | (stor1, some e) => ⟨some e, ctrl, stor1, loc⟩
    | (stor1, none) =>
      let newLedger := upsert ctrl.uploadedDirs d.base d.parent
      let ctrl1 := { ctrl with uploadedDirs := newLedger }
      let loc1 := { loc with scratch := some newLedger }
      if fail ledgerBlobName then
        ⟨some (.blobUploadError ledgerBlobName), ctrl1, stor1, loc1⟩
      else
        ⟨none, ctrl1, ⟨upsert stor1.blobs ledgerBlobName (.pickledLedger newLedger)⟩,
          { loc1 with scratch := none }⟩

/-- `MissionController._download_dir`.  Session assertions first, then the
ledger presence check (skip or raise per `ignore_not_exist`), then download
every listed blob under the case prefix to the recorded parent directory. -/
def download_dir (ctrl : CtrlState) (stor : StorageState) (loc : LocalFS)
    (base : String) (ignore_not_exist : Bool) : OpResult :=
  if ctrl.containerUrl = none then ⟨some .assertionError, ctrl, stor, loc⟩
  else if ctrl.containerToken = none then ⟨some .assertionError, ctrl, stor, loc⟩
  else
    match alookup ctrl.uploadedDirs base with
    | none =>
      if !ignore_not_exist then ⟨some .notFound, ctrl, stor, loc⟩
      else ⟨none, ctrl, stor, loc⟩
    | some parent =>
      let writes := (listBlobs stor base).map (fun b => (parent ++ b.1, b.2))
      ⟨none, ctrl, stor,
        { loc with files := writes.foldl (fun fs e => upsert fs e.1 e.2) loc.files }⟩

/-- `MissionController._delete_dir`.  Session assertions first, then the
ledger presence check, then: delete every listed blob under the case prefix,
remove the in-memory ledger entry, serialize to the scratch file, re-upload
the ledger blob (`fail` injects a fault there), remove the scratch file. -/
def delete_dir (fail : BlobName → Bool) (ctrl : CtrlState) (stor : StorageState)
    (loc : LocalFS) (base : String) (ignore_not_exist : Bool) : OpResult :=
  if ctrl.containerUrl = none then ⟨some .assertionError, ctrl, stor, loc⟩
  else if ctrl.containerToken = none then ⟨some .assertionError, ctrl, stor, loc⟩
  else
    match alookup ctrl.uploadedDirs base with
    | none =>
      if !ignore_not_exist then ⟨some .notFound, ctrl, stor, loc⟩
      else ⟨none, ctrl, stor, loc⟩
    | some _ =>
      let stor1 : StorageState :=
        ⟨(listBlobs stor base).foldl (fun bs b => removeKey bs b.1) stor.blobs⟩
      let newLedger := removeKey ctrl.uploadedDirs base
      let ctrl1 := { ctrl with uploadedDirs := newLedger }
      let loc1 := { loc with scratch := some newLedger }
      if fail ledgerBlobName then
        ⟨some (.blobUploadError ledgerBlobName), ctrl1, stor1, loc1⟩
      else
        ⟨none, ctrl1, ⟨upsert stor1.blobs ledgerBlobName (.pickledLedger newLedger)⟩,
          { loc1 with scratch := none }⟩

/-- A fault-free storage backend (no blob upload ever fails). -/
def noFail : BlobName → Bool := fun _ => false

/-! ### Storage-container lifecycle (`MissionController._create_storage_container`) -/

/-- Outcome of the initial `create_container(fail_on_exist=True)` call. -/
inductive CreateResp : Type
  | ok
  | conflictAlreadyExists
  | conflictBeingDeleted
deriving DecidableEq, Repr

/-- Requests the container-creation procedure issues against storage. -/
inductive CscEvent : Type
  | attemptCreate
  | cscSleep (secs : Nat)
deriving DecidableEq, Repr

/-- Errors raised by `_create_storage_container`. -/
inductive CscErr : Type
  | timeoutErr
  | deserializeErr
deriving DecidableEq, Repr

/-- Result of `_create_storage_container`: issued events, raised error (if
any), and the states at return/raise time. -/
structure CscResult : Type where
  events : List CscEvent
  err : Option CscErr
  ctrl : CtrlState
  stor : StorageState
  loc : LocalFS
deriving DecidableEq, Repr

/-- The `ContainerBeingDeleted` retry loop:
`while not created: sleep(5); created = create_container(fail_on_exist=False);`
`counter += 1; if counter > 120: raise`.  `resp j` is the backend's answer to
the `j`-th retry attempt (`True` = container created).  Note the timeout
check runs after the attempt regardless of its outcome, so the loop raises
once the counter reaches 121 even if that 121st retry succeeded.  Returns
the events and `some retries` on success, `none` on the timeout raise.  The
`fuel` argument is only a structural-recursion bound: the top-level call
passes `121`, which the counter check makes unreachable. -/
def cscRetryLoop (resp : Nat → Bool) : Nat → Nat → List CscEvent × Option Nat
  | _, 0 => ([], none)
  | counter, fuel + 1 =>
    let created := resp (counter + 1)
    let counter1 := counter + 1
    if counter1 > 120 then ([.cscSleep 5, .attemptCreate], none)
    else if created then ([.cscSleep 5, .attemptCreate], some counter1)
    else
      let r := cscRetryLoop resp counter1 fuel
      (.cscSleep 5 :: .attemptCreate :: r.1, r.2)

/-- `MissionController._create_storage_container`, with the backend's
responses as parameters: `firstResp` for the initial
`create_container(fail_on_exist=True)` call and `retryResp` for the
`ContainerBeingDeleted` retry attempts.  On plain success or on
`ContainerAlreadyExists` (with ledger recovery from the `uploaded_dirs.dat`
blob when present) and on a successful retry loop, a SAS token and container
URL are generated and stored on the controller. -/
def create_storage_container (firstResp : CreateResp) (retryResp : Nat → Bool)
    (ctrl : CtrlState) (stor : StorageState) (loc : LocalFS) : CscResult :=
  let withSession : CtrlState → CtrlState := fun c =>
    { c with containerToken := some "sas-token", containerUrl := some "sas-url" }
  match firstResp with
  | .ok => ⟨[.attemptCreate], none, withSession ctrl, stor, loc⟩
  | .conflictAlreadyExists =>
    match alookup stor.blobs ledgerBlobName with
    | some (.pickledLedger m) =>
      ⟨[.attemptCreate], none, withSession { ctrl with uploadedDirs := m }, stor, loc⟩
    | some (.file _) =>
      ⟨[.attemptCreate], some .deserializeErr, ctrl, stor,
        { loc with scratch := none }⟩
    | none => ⟨[.attemptCreate], none, withSession ctrl, stor, loc⟩
  | .conflictBeingDeleted =>
    let r := cscRetryLoop retryResp 0 121
    match r.2 with
    | some _ => ⟨.attemptCreate :: r.1, none, withSession ctrl, stor, loc⟩
    | none => ⟨.attemptCreate :: r.1, some .timeoutErr, ctrl, stor, loc⟩

/-- Number of container-creation attempts in an event list. -/
def countAttempts (ev : List CscEvent) : Nat :=
  (ev.filter (fun e => match e with | .attemptCreate => true | _ => false)).length

/-! ### Generic association-list lemmas -/

theorem alookup_upsert_self {κ β : Type} [DecidableEq κ] (l : List (κ × β)) (k : κ) (v : β) :
    alookup (upsert l k v) k = some v := by
  induction l with
  | nil => simp [alookup, upsert]
  | cons e rest ih =>
    by_cases h : e.1 = k
    · simp [alookup, upsert, h]
    · simp [alookup, upsert, h, ih]

theorem alookup_upsert_ne {κ β : Type} [DecidableEq κ] (l : List (κ × β)) (k k1 : κ) (v : β)
    (h : k1 ≠ k) : alookup (upsert l k1 v) k = alookup l k := by
  induction l with
  | nil => simp [alookup, upsert, h]
  | cons e rest ih =>
    by_cases he : e.1 = k1
    · simp [alookup, upsert, he, h]
    · simp only [upsert, if_neg he, alookup]
      by_cases hek : e.1 = k
      · simp [hek]
      · simp [hek, ih]

theorem upsert_of_key_not_mem {κ β : Type} [DecidableEq κ] (l : List (κ × β)) (k : κ) (v : β)
    (h : k ∉ l.map Prod.fst) : upsert l k v = l ++ [(k, v)] := by
  induction l with
  | nil => simp [upsert]
  | cons e rest ih =>
    simp only [List.map_cons, List.mem_cons, not_or] at h
    have he : e.1 ≠ k := fun hc => h.1 hc.symm
    simp [upsert, he, ih h.2]

theorem foldl_upsert_append {κ β : Type} [DecidableEq κ]
    (entries : List (κ × β)) (l : List (κ × β))
    (hn : (entries.map Prod.fst).Nodup)
    (hd : ∀ k ∈ entries.map Prod.fst, k ∉ l.map Prod.fst) :
    entries.foldl (fun acc e => upsert acc e.1 e.2) l = l ++ entries := by
  induction entries generalizing l with
  | nil => simp
  | cons e rest ih =>
    simp only [List.map_cons, List.nodup_cons] at hn
    have hfresh : e.1 ∉ l.map Prod.fst := hd e.1 (by simp)
    have step : upsert l e.1 e.2 = l ++ [e] := by
      rw [upsert_of_key_not_mem l e.1 e.2 hfresh]
    have hd1 : ∀ k ∈ rest.map Prod.fst, k ∉ (l ++ [e]).map Prod.fst := by
      intro k hk
      simp only [List.map_append, List.mem_append, List.map_cons, List.map_nil,
        List.mem_singleton, not_or]
      exact ⟨hd k (by simp [hk]), fun hc => hn.1 (hc ▸ hk)⟩
    simp only [List.foldl_cons, step, ih (l ++ [e]) hn.2 hd1, List.append_assoc,
      List.singleton_append]

theorem removeKey_eq_filter {κ β : Type} [DecidableEq κ] (l : List (κ × β)) (k : κ) :
    removeKey l k = l.filter (fun e => decide (e.1 ≠ k)) := by
  induction l with
  | nil => simp [removeKey]
  | cons e rest ih =>
    by_cases h : e.1 = k
    · simp [removeKey, h, ih, List.filter_cons]
    · simp [removeKey, h, ih, List.filter_cons]

theorem alookup_removeKey_self {κ β : Type} [DecidableEq κ] (l : List (κ × β)) (k : κ) :
    alookup (removeKey l k) k = none := by
  induction l with
  | nil => simp [removeKey, alookup]
  | cons e rest ih =>
    by_cases h : e.1 = k
    · simp [removeKey, h, ih]
    · simp [removeKey, alookup, h, ih]

theorem alookup_removeKey_ne {κ β : Type} [DecidableEq κ] (l : List (κ × β)) (k k1 : κ)
    (h : k1 ≠ k) : alookup (removeKey l k1) k = alookup l k := by
  induction l with
  | nil => simp [removeKey]
  | cons e rest ih =>
    by_cases he : e.1 = k1
    · have : e.1 ≠ k := fun hc => h ((he.symm.trans hc))
      simp [removeKey, alookup, he, this, ih, h]
    · simp only [removeKey, if_neg he, alookup]
      by_cases hek : e.1 = k
      · simp [hek]
      · simp [hek, ih]

theorem foldl_removeKey_filter {κ β γ : Type} [DecidableEq κ]
    (bs : List (κ × γ)) (l : List (κ × β)) :
    bs.foldl (fun acc b => removeKey acc b.1) l
      = l.filter (fun e => decide (e.1 ∉ bs.map Prod.fst)) := by
  induction bs generalizing l with
  | nil => simp
  | cons b rest ih =>
    rw [List.foldl_cons, ih, removeKey_eq_filter, List.filter_filter]
    refine List.filter_congr ?_
    intro e _
    by_cases h1 : e.1 = b.1
    · simp [h1]
    · by_cases h2 : e.1 ∈ rest.map Prod.fst <;> simp [h1, h2]

theorem alookup_foldl_removeKey_ne {κ β γ : Type} [DecidableEq κ]
    (bs : List (κ × γ)) (l : List (κ × β)) (k : κ) (h : ∀ b ∈ bs, b.1 ≠ k) :
    alookup (bs.foldl (fun acc b => removeKey acc b.1) l) k = alookup l k := by
  induction bs generalizing l with
  | nil => simp
  | cons b rest ih =>
    simp only [List.foldl_cons]
    rw [ih (removeKey l b.1) (fun e he => h e (by simp [he])),
      alookup_removeKey_ne l k b.1 (h b (by simp))]

/-! ### Lemmas about the pool wait loop -/

theorem waitSteady_steady (polls : List AllocationState) :
    waitSteady polls .steady = some ([], .steady, polls) := by
  rw [waitSteady.eq_def]
  simp

theorem waitSteady_nil (cur : AllocationState) (h : cur ≠ .steady) :
    waitSteady [] cur = none := by
  rw [waitSteady.eq_def]
  simp [h]

theorem waitSteady_cons (s : AllocationState) (rest : List AllocationState)
    (cur : AllocationState) (h : cur ≠ .steady) :
    waitSteady (s :: rest) cur
      = (waitSteady rest s).map
          (fun r => (.sleep 2 :: .getPool s :: r.1, r.2.1, r.2.2)) := by
  rw [waitSteady.eq_def]
  simp [h]

theorem waitSteady_spec (polls : List AllocationState) :
    ∀ cur, cur ≠ .steady → AllocationState.steady ∈ polls →
    ∃ w rem, waitSteady polls cur = some (w, .steady, rem) ∧
      (∃ w0, w = w0 ++ [PoolEvent.getPool .steady]) ∧
      (∀ e ∈ w, e = PoolEvent.sleep 2 ∨ ∃ s, e = PoolEvent.getPool s) := by
  induction polls with
  | nil =>
    intro cur _ hm
    simp at hm
  | cons s rest ih =>
    intro cur hc hm
    by_cases hs : s = .steady
    · subst hs
      refine ⟨[.sleep 2, .getPool .steady], rest, ?_, ⟨[.sleep 2], rfl⟩, ?_⟩
      · rw [waitSteady_cons _ _ _ hc, waitSteady_steady]
        rfl
      · intro e he
        rcases List.mem_cons.mp he with h | h
        · exact Or.inl h
        · rcases List.mem_singleton.mp h with rfl
          exact Or.inr ⟨_, rfl⟩
    · have hm1 : AllocationState.steady ∈ rest := by
        rcases List.mem_cons.mp hm with h | h
        · exact absurd h.symm hs
        · exact h
      obtain ⟨w, rem, heq, ⟨w0, hw0⟩, hmem⟩ := ih s hs hm1
      refine ⟨.sleep 2 :: .getPool s :: w, rem, ?_,
        ⟨.sleep 2 :: .getPool s :: w0, by simp [hw0]⟩, ?_⟩
      · rw [waitSteady_cons _ _ _ hc, heq]
        rfl
      · intro e he
        rcases List.mem_cons.mp he with h | h
        · exact Or.inl h
        · rcases List.mem_cons.mp h with h1 | h1
          · exact Or.inr ⟨_, h1⟩
          · exact hmem e h1

/-- Claim C1: provisioning the pool is idempotent.  Starting from a backend
with no pool, running `_create_pool` twice (with no external drift between
the runs, whatever allocation state the created pool reports) issues exactly
one pool-creation request and zero resize requests in total, and the second
run succeeds as a no-op on the backend rather than raising a
duplicate-create error. -/
theorem c1_idempotent_provisioning (info : MissionInfo) (a : AllocationState)
    (polls : List AllocationState) :
    ∃ ev1 be1 ev2 be2,
      create_pool info ⟨none, a, polls⟩ = some (ev1, be1) ∧
      create_pool info be1 = some (ev2, be2) ∧
      countCreate (ev1 ++ ev2) = 1 ∧
      countResize (ev1 ++ ev2) = 0 ∧
      be2 = be1 := by
  refine ⟨[.createPool info.nNodes], ⟨some ⟨info.nNodes, a⟩, a, polls⟩,
    [.getPool a], ⟨some ⟨info.nNodes, a⟩, a, polls⟩, rfl, ?_, rfl, rfl, rfl⟩
  simp [create_pool]

/-- Claim C2: convergent resize.  For an existing pool whose target node
count differs from the descriptor's, `_create_pool` issues exactly one
resize request, carrying the descriptor's node count and the `"requeue"`
deallocation option, and no creation request; every sleep in the run is the
fixed 2-second interval; and when the pool was initially in the `resizing`
allocation state, the run is: the initial get, a stop-resize, a poll loop
whose last get observes `steady`, and only then the resize request. -/
theorem c2_convergent_resize (info : MissionInfo) (t : Nat) (a a2 : AllocationState)
    (polls : List AllocationState)
    (hne : t ≠ info.nNodes)
    (hpolls : a = .resizing → AllocationState.steady ∈ polls) :
    ∃ ev be1,
      create_pool info ⟨some ⟨t, a⟩, a2, polls⟩ = some (ev, be1) ∧
      countResize ev = 1 ∧
      countCreate ev = 0 ∧
      PoolEvent.resizePool info.nNodes "requeue" ∈ ev ∧
      (∀ m dopt, PoolEvent.resizePool m dopt ∈ ev → m = info.nNodes ∧ dopt = "requeue") ∧
      (∀ s, PoolEvent.sleep s ∈ ev → s = 2) ∧
      (a = .resizing →
        ∃ w0, ev = PoolEvent.getPool a :: PoolEvent.stopResize ::
          ((w0 ++ [PoolEvent.getPool .steady]) ++
            [PoolEvent.resizePool info.nNodes "requeue"])) := by
  by_cases ha : a = .resizing
  · subst ha
    obtain ⟨w, rem, heq, ⟨w0, hw0⟩, hmem⟩ :=
      waitSteady_spec polls .resizing (by simp) (hpolls rfl)
    refine ⟨.getPool .resizing :: .stopResize :: (w ++ [.resizePool info.nNodes "requeue"]),
      ⟨some ⟨info.nNodes, .resizing⟩, a2, rem⟩, ?_, ?_, ?_, ?_, ?_, ?_, ?_⟩
    · simp [create_pool, hne, heq]
    · have hwres : w.filter
          (fun e => match e with | PoolEvent.resizePool _ _ => true | _ => false) = [] := by
        refine List.filter_eq_nil_iff.mpr ?_
        intro e he
        rcases hmem e he with rfl | ⟨s, rfl⟩ <;> simp
      simp [countResize, List.filter_append, hwres]
    · have hwcre : w.filter
          (fun e => match e with | PoolEvent.createPool _ => true | _ => false) = [] := by
        refine List.filter_eq_nil_iff.mpr ?_
        intro e he
        rcases hmem e he with rfl | ⟨s, rfl⟩ <;> simp
      simp [countCreate, List.filter_append, hwcre]
    · simp
    · intro m dopt hm
      simp only [List.mem_cons, List.mem_append, List.mem_singleton] at hm
      rcases hm with h | h | h | h
      · simp at h
      · simp at h
      · rcases hmem _ h with h2 | ⟨s, h2⟩ <;> simp at h2
      · simp only [PoolEvent.resizePool.injEq, List.not_mem_nil, or_false] at h
        exact h
    · intro s hs
      simp only [List.mem_cons, List.mem_append, List.mem_singleton] at hs
      rcases hs with h | h | h | h
      · simp at h
      · simp at h
      · rcases hmem _ h with h2 | ⟨s2, h2⟩
        · simp only [PoolEvent.sleep.injEq] at h2
          exact h2
        · simp at h2
      · simp at h
    · intro _
      exact ⟨w0, by rw [hw0]⟩
  · refine ⟨[.getPool a, .resizePool info.nNodes "requeue"],
      ⟨some ⟨info.nNodes, .resizing⟩, a2, polls⟩, ?_, rfl, rfl, ?_, ?_, ?_, fun h => absurd h ha⟩
    · simp [create_pool, hne, ha]
    · simp
    · intro m dopt hm
      simp only [List.mem_cons, List.mem_singleton] at hm
      rcases hm with h | h | h
      · simp at h
      · simp only [PoolEvent.resizePool.injEq] at h
        exact h
      · simp at h
    · intro s hs
      simp only [List.mem_cons, List.mem_singleton] at hs
      rcases hs with h | h
      · simp at h
      · rcases h with h | h <;> simp at h

/-- Witness for claim C2 at a concrete input: an existing pool with 2 nodes
and steady allocation state against a descriptor asking for 4 nodes. -/
theorem c2_convergent_resize_witness :
    (2 ≠ (MissionInfo.mk "pool" "job" "cont" 4 "STANDARD_H8").nNodes) ∧
    (AllocationState.steady = .resizing →
      AllocationState.steady ∈ ([] : List AllocationState)) ∧
    (∃ ev be1,
      create_pool (MissionInfo.mk "pool" "job" "cont" 4 "STANDARD_H8")
          ⟨some ⟨2, .steady⟩, .steady, []⟩ = some (ev, be1) ∧
      countResize ev = 1 ∧
      countCreate ev = 0 ∧
      PoolEvent.resizePool (MissionInfo.mk "pool" "job" "cont" 4 "STANDARD_H8").nNodes
        "requeue" ∈ ev ∧
      (∀ m dopt, PoolEvent.resizePool m dopt ∈ ev →
        m = (MissionInfo.mk "pool" "job" "cont" 4 "STANDARD_H8").nNodes ∧ dopt = "requeue") ∧
      (∀ s, PoolEvent.sleep s ∈ ev → s = 2) ∧
      (AllocationState.steady = .resizing →
        ∃ w0, ev = PoolEvent.getPool .steady :: PoolEvent.stopResize ::
          ((w0 ++ [PoolEvent.getPool .steady]) ++
            [PoolEvent.resizePool
              (MissionInfo.mk "pool" "job" "cont" 4 "STANDARD_H8").nNodes "requeue"]))) :=
  ⟨by decide, by decide,
    c2_convergent_resize (MissionInfo.mk "pool" "job" "cont" 4 "STANDARD_H8")
      2 .steady .steady [] (by decide) (by decide)⟩

/-! ### Lemmas about the container-creation retry loop -/

theorem cscRetryLoop_success (resp : Nat -> Bool) (N : Nat) (fuel : Nat) :
    ∀ counter, counter + fuel = 121 → counter < N → N ≤ 120 →
    (∀ j, counter < j → j < N → resp j = false) → resp N = true →
    cscRetryLoop resp counter fuel
      = ((List.replicate (N - counter)
            [CscEvent.cscSleep 5, CscEvent.attemptCreate]).flatten, some N) := by
  induction fuel with
  | zero =>
    intro counter hsum hlt hN _ _
    omega
  | succ fuel ih =>
    intro counter hsum hlt hN hf hs
    have hb : ¬ (counter + 1 > 120) := by omega
    by_cases hcase : counter + 1 = N
    · have hb2 : ¬ (N > 120) := by omega
      have hrepl : N - counter = 1 := by omega
      simp [cscRetryLoop, hb, hb2, hcase, hs, hrepl]
    · have hlt1 : counter + 1 < N := by omega
      have hfalse : resp (counter + 1) = false := hf (counter + 1) (by omega) hlt1
      have ihc := ih (counter + 1) (by omega) hlt1 hN
        (fun j hj1 hj2 => hf j (by omega) hj2) hs
      have hrepl : N - counter = (N - (counter + 1)) + 1 := by omega
      simp [cscRetryLoop, hb, hfalse, ihc, hrepl, List.replicate_succ]

theorem cscRetryLoop_timeout (resp : Nat → Bool) (fuel : Nat) :
    ∀ counter, counter + fuel = 121 →
    (∀ j, counter < j → j ≤ 120 → resp j = false) →
    (cscRetryLoop resp counter fuel).2 = none := by
  induction fuel with
  | zero =>
    intro counter _ _
    simp [cscRetryLoop]
  | succ fuel ih =>
    intro counter hsum hf
    by_cases hb : counter + 1 > 120
    · simp [cscRetryLoop, hb]
    · have hfalse : resp (counter + 1) = false := hf (counter + 1) (by omega) (by omega)
      have ihc := ih (counter + 1) (by omega) (fun j hj1 hj2 => hf j (by omega) hj2)
      simp [cscRetryLoop, hb, hfalse, ihc]

theorem countAttempts_flatten_replicate (N : Nat) :
    countAttempts ((List.replicate N
      [CscEvent.cscSleep 5, CscEvent.attemptCreate]).flatten) = N := by
  induction N with
  | zero => simp [countAttempts]
  | succ n ih =>
    simp only [List.replicate_succ, List.flatten_cons]
    simp only [countAttempts, List.filter_append] at ih ⊢
    simp [ih]

/-- The state of the controller before any provisioning: no session, empty
ledger. -/
def ctrl0 : CtrlState := ⟨none, none, []⟩

/-- An empty mission blob container. -/
def stor0 : StorageState := ⟨[]⟩

/-- An empty local filesystem slice (no scratch file, no downloaded files). -/
def loc0 : LocalFS := ⟨none, []⟩

/-- Claim C3 (amended): container-being-deleted backoff.  If the first
creation attempt raises `ContainerBeingDeleted` and the backend then answers
`False` ("still being deleted") to the first `N - 1` retries and `True` to
the `N`-th retry, with `1 ≤ N ≤ 120`, then `_create_storage_container`
performs exactly `N + 1` creation attempts, each retry preceded by the fixed
5-second sleep, and succeeds on the last; and whenever the backend answers
`False` to every retry up to the 120-attempt bound, the procedure raises the
fatal timeout error instead of retrying indefinitely.  (The claim's original
unrestricted "for every N ≥ 1" fails at `N = 121`: the timeout check runs
after the attempt regardless of its outcome, so the success of a 121st
retry is discarded and the timeout raises anyway; see
`c3_being_deleted_backoff_counterexample`.) -/
theorem c3_being_deleted_backoff (N : Nat) (resp : Nat → Bool)
    (ctrl : CtrlState) (stor : StorageState) (loc : LocalFS)
    (h1 : 1 ≤ N) (h2 : N ≤ 120)
    (hf : ∀ j, 1 ≤ j → j < N → resp j = false) (hs : resp N = true) :
    (create_storage_container .conflictBeingDeleted resp ctrl stor loc).err = none ∧
    (create_storage_container .conflictBeingDeleted resp ctrl stor loc).events
      = CscEvent.attemptCreate ::
        (List.replicate N [CscEvent.cscSleep 5, CscEvent.attemptCreate]).flatten ∧
    countAttempts
      (create_storage_container .conflictBeingDeleted resp ctrl stor loc).events
      = N + 1 ∧
    (∀ resp2 : Nat → Bool, (∀ j, 1 ≤ j → j ≤ 120 → resp2 j = false) →
      (create_storage_container .conflictBeingDeleted resp2 ctrl stor loc).err
        = some .timeoutErr) := by
  have hrun := cscRetryLoop_success resp N 121 0 rfl (by omega) h2
    (fun j hj1 hj2 => hf j (by omega) hj2) hs
  have hN0 : N - 0 = N := by omega
  rw [hN0] at hrun
  refine ⟨?_, ?_, ?_, ?_⟩
  · simp [create_storage_container, hrun]
  · simp [create_storage_container, hrun]
  · have hev : (create_storage_container .conflictBeingDeleted resp ctrl stor loc).events
        = CscEvent.attemptCreate ::
          (List.replicate N [CscEvent.cscSleep 5, CscEvent.attemptCreate]).flatten := by
      simp [create_storage_container, hrun]
    rw [hev]
    have hflat := countAttempts_flatten_replicate N
    simp only [countAttempts] at hflat ⊢
    simp [List.filter_cons, hflat]
  · intro resp2 hf2
    have hrun2 := cscRetryLoop_timeout resp2 121 0 rfl
      (fun j hj1 hj2 => hf2 j (by omega) hj2)
    simp only [create_storage_container]
    rcases hr : (cscRetryLoop resp2 0 121) with ⟨ev2, r2⟩
    rw [hr] at hrun2
    simp at hrun2
    subst hrun2
    simp

/-- Witness for the amended claim C3 at `N = 2`: being-deleted on the first
attempt and on the first retry, success on the second retry. -/
theorem c3_being_deleted_backoff_witness :
    (1 ≤ 2) ∧ (2 ≤ 120) ∧
    (∀ j, 1 ≤ j → j < 2 → ((j == 2 : Bool)) = false) ∧
    ((2 == 2 : Bool)) = true ∧
    ((create_storage_container .conflictBeingDeleted (fun j => j == 2)
        ctrl0 stor0 loc0).err = none ∧
      (create_storage_container .conflictBeingDeleted (fun j => j == 2)
          ctrl0 stor0 loc0).events
        = CscEvent.attemptCreate ::
          (List.replicate 2 [CscEvent.cscSleep 5, CscEvent.attemptCreate]).flatten ∧
      countAttempts (create_storage_container .conflictBeingDeleted (fun j => j == 2)
          ctrl0 stor0 loc0).events = 2 + 1 ∧
      (∀ resp2 : Nat → Bool, (∀ j, 1 ≤ j → j ≤ 120 → resp2 j = false) →
        (create_storage_container .conflictBeingDeleted resp2 ctrl0 stor0 loc0).err
          = some .timeoutErr)) :=
  ⟨by decide, by decide,
    fun j hj1 hj2 => by
      have hj : j = 1 := by omega
      subst hj
      decide,
    by decide,
    c3_being_deleted_backoff 2 (fun j => j == 2) ctrl0 stor0 loc0 (by decide) (by decide)
      (fun j hj1 hj2 => by
        have hj : j = 1 := by omega
        subst hj
        decide)
      (by decide)⟩

/-- Counterexample to claim C3 as stated (quantified over every `N ≥ 1`):
at `N = 121` the backend succeeds on the 121st retry, yet the run raises the
fatal timeout error after 122 creation attempts, because the timeout check
(`counter > 120`) runs after the attempt regardless of its outcome, so it
does not succeed on the last attempt as the claim requires. -/
theorem c3_being_deleted_backoff_counterexample :
    ((121 == 121 : Bool) = true) ∧
    (create_storage_container .conflictBeingDeleted (fun j => j == 121)
        ctrl0 stor0 loc0).err = some .timeoutErr ∧
    countAttempts (create_storage_container .conflictBeingDeleted (fun j => j == 121)
        ctrl0 stor0 loc0).events = 122 :=
  ⟨by decide, by decide, by decide⟩

/-- Claim C4: ledger recovery.  When the container already exists
(`ContainerAlreadyExists` on creation) and the container holds a blob named
`uploaded_dirs.dat` whose content deserializes to the mapping `m`, the call
returns without error, the in-memory ledger `uploaded_dirs` afterwards
equals `m`, the blob store is untouched, and a container session is
established. -/
theorem c4_ledger_recovery (retryResp : Nat → Bool) (ctrl : CtrlState)
    (stor : StorageState) (loc : LocalFS) (m : Ledger)
    (h : alookup stor.blobs ledgerBlobName = some (.pickledLedger m)) :
    (create_storage_container .conflictAlreadyExists retryResp ctrl stor loc).err = none ∧
    (create_storage_container .conflictAlreadyExists retryResp ctrl stor
        loc).ctrl.uploadedDirs = m ∧
    (create_storage_container .conflictAlreadyExists retryResp ctrl stor loc).stor = stor ∧
    (create_storage_container .conflictAlreadyExists retryResp ctrl stor
        loc).ctrl.containerToken ≠ none ∧
    (create_storage_container .conflictAlreadyExists retryResp ctrl stor
        loc).ctrl.containerUrl ≠ none := by
  simp [create_storage_container, h]

/-- Witness for claim C4: a container holding a ledger blob that maps case
`"case"` to parent `["home"]`. -/
theorem c4_ledger_recovery_witness :
    (alookup (StorageState.mk [(ledgerBlobName,
        BlobData.pickledLedger [("case", ["home"])])]).blobs ledgerBlobName
      = some (.pickledLedger [("case", ["home"])])) ∧
    ((create_storage_container .conflictAlreadyExists (fun _ => false) ctrl0
        (StorageState.mk [(ledgerBlobName, BlobData.pickledLedger [("case", ["home"])])])
        loc0).err = none ∧
      (create_storage_container .conflictAlreadyExists (fun _ => false) ctrl0
        (StorageState.mk [(ledgerBlobName, BlobData.pickledLedger [("case", ["home"])])])
        loc0).ctrl.uploadedDirs = [("case", ["home"])] ∧
      (create_storage_container .conflictAlreadyExists (fun _ => false) ctrl0
        (StorageState.mk [(ledgerBlobName, BlobData.pickledLedger [("case", ["home"])])])
        loc0).stor
        = StorageState.mk [(ledgerBlobName, BlobData.pickledLedger [("case", ["home"])])] ∧
      (create_storage_container .conflictAlreadyExists (fun _ => false) ctrl0
        (StorageState.mk [(ledgerBlobName, BlobData.pickledLedger [("case", ["home"])])])
        loc0).ctrl.containerToken ≠ none ∧
      (create_storage_container .conflictAlreadyExists (fun _ => false) ctrl0
        (StorageState.mk [(ledgerBlobName, BlobData.pickledLedger [("case", ["home"])])])
        loc0).ctrl.containerUrl ≠ none) :=
  ⟨by decide,
    c4_ledger_recovery (fun _ => false) ctrl0
      (StorageState.mk [(ledgerBlobName, BlobData.pickledLedger [("case", ["home"])])])
      loc0 [("case", ["home"])] (by decide)⟩

/-- Claim C5: staging uniqueness.  If the case base name of the directory
already has a ledger entry — whatever parent directory either path has —
`_upload_dir` raises the duplicate-case conflict error, uploads nothing, and
leaves the controller state, the blob store (hence the persisted ledger
blob), and the local filesystem unchanged.  The duplicate check precedes the
session assertions, so this holds for every controller state and any
backend fault behaviour. -/
theorem c5_duplicate_case (fail : BlobName → Bool) (ctrl : CtrlState)
    (stor : StorageState) (loc : LocalFS) (d : LocalDir) (p : FPath)
    (h : alookup ctrl.uploadedDirs d.base = some p) :
    upload_dir fail ctrl stor loc d = ⟨some (.duplicateCase d.base), ctrl, stor, loc⟩ := by
  simp [upload_dir, h]

/-- Witness for claim C5: the ledger already maps `"case"` (staged from
parent `["old"]`); staging `/new/case` fails without any mutation. -/
theorem c5_duplicate_case_witness :
    (alookup (CtrlState.mk (some "tok") (some "url") [("case", ["old"])]).uploadedDirs
        (LocalDir.mk ["new"] "case" [(["a.txt"], "A")]).base = some ["old"]) ∧
    upload_dir noFail (CtrlState.mk (some "tok") (some "url") [("case", ["old"])])
        stor0 loc0 (LocalDir.mk ["new"] "case" [(["a.txt"], "A")])
      = ⟨some (.duplicateCase (LocalDir.mk ["new"] "case" [(["a.txt"], "A")]).base),
          CtrlState.mk (some "tok") (some "url") [("case", ["old"])], stor0, loc0⟩ :=
  ⟨by decide,
    c5_duplicate_case noFail (CtrlState.mk (some "tok") (some "url") [("case", ["old"])])
      stor0 loc0 (LocalDir.mk ["new"] "case" [(["a.txt"], "A")]) ["old"] (by decide)⟩

/-- Claim C8: missing-case policy.  With an established container session,
`_download_dir` and `_delete_dir` on a base name absent from the ledger
perform no storage operation and no ledger mutation and return silently when
`ignore_not_exist` is true, and raise the not-found error (again with no
mutation) when it is false: the choice is exactly the caller's flag. -/
theorem c8_missing_case_policy (fail : BlobName → Bool) (ctrl : CtrlState)
    (stor : StorageState) (loc : LocalFS) (b tok url : String)
    (hu : ctrl.containerUrl = some url) (ht : ctrl.containerToken = some tok)
    (h : alookup ctrl.uploadedDirs b = none) :
    download_dir ctrl stor loc b true = ⟨none, ctrl, stor, loc⟩ ∧
    download_dir ctrl stor loc b false = ⟨some .notFound, ctrl, stor, loc⟩ ∧
    delete_dir fail ctrl stor loc b true = ⟨none, ctrl, stor, loc⟩ ∧
    delete_dir fail ctrl stor loc b false = ⟨some .notFound, ctrl, stor, loc⟩ := by
  refine ⟨?_, ?_, ?_, ?_⟩ <;> simp [download_dir, delete_dir, hu, ht, h]

/-- Witness for claim C8 at a concrete state: session established, empty
ledger, unknown case `"ghost"`. -/
theorem c8_missing_case_policy_witness :
    ((CtrlState.mk (some "tok") (some "url") []).containerUrl = some "url") ∧
    ((CtrlState.mk (some "tok") (some "url") []).containerToken = some "tok") ∧
    (alookup (CtrlState.mk (some "tok") (some "url") []).uploadedDirs "ghost" = none) ∧
    (download_dir (CtrlState.mk (some "tok") (some "url") []) stor0 loc0 "ghost" true
        = ⟨none, CtrlState.mk (some "tok") (some "url") [], stor0, loc0⟩ ∧
      download_dir (CtrlState.mk (some "tok") (some "url") []) stor0 loc0 "ghost" false
        = ⟨some .notFound, CtrlState.mk (some "tok") (some "url") [], stor0, loc0⟩ ∧
      delete_dir noFail (CtrlState.mk (some "tok") (some "url") []) stor0 loc0 "ghost" true
        = ⟨none, CtrlState.mk (some "tok") (some "url") [], stor0, loc0⟩ ∧
      delete_dir noFail (CtrlState.mk (some "tok") (some "url") []) stor0 loc0 "ghost" false
        = ⟨some .notFound, CtrlState.mk (some "tok") (some "url") [], stor0, loc0⟩) :=
  ⟨by decide, by decide, by decide,
    c8_missing_case_policy noFail (CtrlState.mk (some "tok") (some "url") [])
      stor0 loc0 "ghost" "tok" "url" (by decide) (by decide) (by decide)⟩

/-- Claim C9: session-check ordering.  When no container session is
established (`container_url` or `container_token` is `None`), `_download_dir`
and `_delete_dir` raise the assertion error — for every base name and both
values of `ignore_not_exist`, in particular also when the base name is
absent from the ledger — with no mutation, because the session assertions
precede the ledger presence check; whereas `_upload_dir` checks for a
duplicate base name first, so a duplicate case raises the duplicate-case
error even with no session established. -/
theorem c9_session_check_ordering (fail : BlobName → Bool) (ctrl : CtrlState)
    (stor : StorageState) (loc : LocalFS) (b : String) (ig : Bool) (d : LocalDir)
    (h : ctrl.containerUrl = none ∨ ctrl.containerToken = none) :
    download_dir ctrl stor loc b ig = ⟨some .assertionError, ctrl, stor, loc⟩ ∧
    delete_dir fail ctrl stor loc b ig = ⟨some .assertionError, ctrl, stor, loc⟩ ∧
    (∀ p, alookup ctrl.uploadedDirs d.base = some p →
      upload_dir fail ctrl stor loc d = ⟨some (.duplicateCase d.base), ctrl, stor, loc⟩) := by
  refine ⟨?_, ?_, fun p hp => by simp [upload_dir, hp]⟩
  · rcases h with h | h
    · simp [download_dir, h]
    · by_cases hu : ctrl.containerUrl = none <;> simp [download_dir, h, hu]
  · rcases h with h | h
    · simp [delete_dir, h]
    · by_cases hu : ctrl.containerUrl = none <;> simp [delete_dir, h, hu]

/-- Witness for claim C9: no session (both fields `none`), empty ledger and
unknown case for download/delete; and a duplicate case for upload despite
the missing session. -/
theorem c9_session_check_ordering_witness :
    ((CtrlState.mk none none [("case", ["old"])]).containerUrl = none ∨
      (CtrlState.mk none none [("case", ["old"])]).containerToken = none) ∧
    (download_dir (CtrlState.mk none none [("case", ["old"])]) stor0 loc0 "ghost" true
        = ⟨some .assertionError, CtrlState.mk none none [("case", ["old"])], stor0, loc0⟩ ∧
      delete_dir noFail (CtrlState.mk none none [("case", ["old"])]) stor0 loc0 "ghost" true
        = ⟨some .assertionError, CtrlState.mk none none [("case", ["old"])], stor0, loc0⟩ ∧
      (∀ p, alookup (CtrlState.mk none none [("case", ["old"])]).uploadedDirs
          (LocalDir.mk ["new"] "case" []).base = some p →
        upload_dir noFail (CtrlState.mk none none [("case", ["old"])]) stor0 loc0
            (LocalDir.mk ["new"] "case" [])
          = ⟨some (.duplicateCase (LocalDir.mk ["new"] "case" []).base),
              CtrlState.mk none none [("case", ["old"])], stor0, loc0⟩)) :=
  ⟨Or.inl rfl,
    c9_session_check_ordering noFail (CtrlState.mk none none [("case", ["old"])])
      stor0 loc0 "ghost" true (LocalDir.mk ["new"] "case" []) (Or.inl rfl)⟩

/-! ### Lemmas about the upload loop and the case prefix -/

theorem uploadFiles_err_none (fail : BlobName → Bool) (entries : List (BlobName × String)) :
    ∀ stor, (∀ e ∈ entries, fail e.1 = false) →
    (uploadFiles fail stor entries).2 = none := by
  induction entries with
  | nil =>
    intro stor _
    simp [uploadFiles]
  | cons e rest ih =>
    obtain ⟨n, c⟩ := e
    intro stor hf
    have h1 : fail n = false := hf (n, c) (by simp)
    simp only [uploadFiles, h1, Bool.false_eq_true, if_false]
    exact ih _ (fun x hx => hf x (by simp [hx]))

theorem alookup_uploadFiles_ne (fail : BlobName → Bool)
    (entries : List (BlobName × String)) :
    ∀ stor k, (∀ e ∈ entries, e.1 ≠ k) →
    alookup (uploadFiles fail stor entries).1.blobs k = alookup stor.blobs k := by
  induction entries with
  | nil =>
    intro stor k _
    simp [uploadFiles]
  | cons e rest ih =>
    obtain ⟨n, c⟩ := e
    intro stor k hk
    by_cases hf : fail n
    · simp [uploadFiles, hf]
    · simp only [uploadFiles, hf, Bool.false_eq_true, if_false]
      rw [ih _ k (fun x hx => hk x (by simp [hx]))]
      exact alookup_upsert_ne stor.blobs k n (BlobData.file c) (hk (n, c) (by simp))

theorem underCasePrefix_ne_ledger (base : String) (n : BlobName)
    (h : underCasePrefix base n = true) : n ≠ ledgerBlobName := by
  intro hc
  subst hc
  simp [underCasePrefix, ledgerBlobName] at h

theorem listBlobs_names_ne_ledger (stor : StorageState) (base : String) :
    ∀ b ∈ listBlobs stor base, b.1 ≠ ledgerBlobName := by
  intro b hb
  have hmem : b ∈ stor.blobs.filter (fun e => underCasePrefix base e.1) :=
    List.take_subset _ _ hb
  exact underCasePrefix_ne_ledger base b.1 (List.mem_filter.mp hmem).2

/-- Claim C10: ledger mutation and ledger persistence are not atomic against
exceptions.  With an established session and a fault injected exactly on the
upload of the `uploaded_dirs.dat` blob: (upload part) `_upload_dir` on a
fresh case has already inserted the case into the in-memory ledger when the
ledger-blob upload raises — the insertion is not rolled back, the remote
ledger blob is unchanged (memory and remote diverge), and the local scratch
file `uploaded_dirs.dat` is left behind; (purge part) `_delete_dir` on a
present case has already removed the entry from the in-memory ledger when
the ledger-blob upload raises — again no rollback, unchanged remote ledger
blob, and the scratch file left behind. -/
theorem c10_nonatomic_ledger_persistence :
    (∀ (ctrl : CtrlState) (stor : StorageState) (loc : LocalFS) (d : LocalDir)
        (tok url : String),
      ctrl.containerToken = some tok → ctrl.containerUrl = some url →
      alookup ctrl.uploadedDirs d.base = none →
      (∀ e ∈ d.files, e.1 ≠ ([] : FPath)) →
      (upload_dir (fun n => decide (n = ledgerBlobName)) ctrl stor loc d).err
          = some (.blobUploadError ledgerBlobName) ∧
        (upload_dir (fun n => decide (n = ledgerBlobName)) ctrl stor loc d).ctrl.uploadedDirs
          = upsert ctrl.uploadedDirs d.base d.parent ∧
        alookup (upload_dir (fun n => decide (n = ledgerBlobName)) ctrl stor
            loc d).ctrl.uploadedDirs d.base = some d.parent ∧
        (upload_dir (fun n => decide (n = ledgerBlobName)) ctrl stor loc d).loc.scratch
          = some (upsert ctrl.uploadedDirs d.base d.parent) ∧
        alookup (upload_dir (fun n => decide (n = ledgerBlobName)) ctrl stor
            loc d).stor.blobs ledgerBlobName = alookup stor.blobs ledgerBlobName) ∧
    (∀ (ctrl : CtrlState) (stor : StorageState) (loc : LocalFS) (b : String) (p : FPath)
        (tok url : String) (ig : Bool),
      ctrl.containerToken = some tok → ctrl.containerUrl = some url →
      alookup ctrl.uploadedDirs b = some p →
      (delete_dir (fun n => decide (n = ledgerBlobName)) ctrl stor loc b ig).err
          = some (.blobUploadError ledgerBlobName) ∧
        (delete_dir (fun n => decide (n = ledgerBlobName)) ctrl stor loc b ig).ctrl.uploadedDirs
          = removeKey ctrl.uploadedDirs b ∧
        alookup (delete_dir (fun n => decide (n = ledgerBlobName)) ctrl stor loc b
            ig).ctrl.uploadedDirs b = none ∧
        (delete_dir (fun n => decide (n = ledgerBlobName)) ctrl stor loc b ig).loc.scratch
          = some (removeKey ctrl.uploadedDirs b) ∧
        alookup (delete_dir (fun n => decide (n = ledgerBlobName)) ctrl stor loc b
            ig).stor.blobs ledgerBlobName = alookup stor.blobs ledgerBlobName) := by
  constructor
  · intro ctrl stor loc d tok url ht hu hfresh hne
    have hkeys : ∀ e ∈ d.files.map (fun e => (d.base :: e.1, e.2)),
        e.1 ≠ ledgerBlobName := by
      intro e he
      obtain ⟨x, hx, rfl⟩ := List.mem_map.mp he
      intro hc
      have : x.1 = [] := (List.cons.injEq _ _ _ _).mp hc |>.2
      exact hne x hx this
    have hfail : ∀ e ∈ d.files.map (fun e => (d.base :: e.1, e.2)),
        (fun n => decide (n = ledgerBlobName)) e.1 = false := by
      intro e he
      simp [hkeys e he]
    rcases hupl : uploadFiles (fun n => decide (n = ledgerBlobName)) stor
        (d.files.map (fun e => (d.base :: e.1, e.2))) with ⟨stor1, r⟩
    have hr : r = none := by
      have := uploadFiles_err_none (fun n => decide (n = ledgerBlobName))
        (d.files.map (fun e => (d.base :: e.1, e.2))) stor hfail
      rw [hupl] at this
      exact this
    subst hr
    have hblobs : alookup stor1.blobs ledgerBlobName = alookup stor.blobs ledgerBlobName := by
      have := alookup_uploadFiles_ne (fun n => decide (n = ledgerBlobName))
        (d.files.map (fun e => (d.base :: e.1, e.2))) stor ledgerBlobName hkeys
      rw [hupl] at this
      exact this
    simp [upload_dir, hfresh, ht, hu, hupl, alookup_upsert_self, hblobs]
  · intro ctrl stor loc b p tok url ig ht hu hpresent
    have hnames := listBlobs_names_ne_ledger stor b
    have hblobs : alookup ((listBlobs stor b).foldl
          (fun bs blob => removeKey bs blob.1) stor.blobs) ledgerBlobName
        = alookup stor.blobs ledgerBlobName :=
      alookup_foldl_removeKey_ne (listBlobs stor b) stor.blobs ledgerBlobName hnames
    simp [delete_dir, hpresent, ht, hu, hblobs, alookup_removeKey_self]

/-- Controller with an established session and an empty ledger. -/
def ctrlC10u : CtrlState := ⟨some "tok", some "url", []⟩

/-- A one-file case directory `/home/case/a.txt`. -/
def dirC10 : LocalDir := ⟨["home"], "case", [(["a.txt"], "A")]⟩

/-- Controller with an established session whose ledger holds `"case"`. -/
def ctrlC10d : CtrlState := ⟨some "tok", some "url", [("case", ["home"])]⟩

/-- A container holding one staged data blob and the persisted ledger blob. -/
def storC10 : StorageState :=
  ⟨[(["case", "a.txt"], .file "A"),
    (ledgerBlobName, .pickledLedger [("case", ["home"])])]⟩

/-- Witness for claim C10: concrete upload and purge runs in which only the
ledger-blob upload faults. -/
theorem c10_nonatomic_ledger_persistence_witness :
    (ctrlC10u.containerToken = some "tok") ∧
    (ctrlC10u.containerUrl = some "url") ∧
    (alookup ctrlC10u.uploadedDirs dirC10.base = none) ∧
    (∀ e ∈ dirC10.files, e.1 ≠ ([] : FPath)) ∧
    ((upload_dir (fun n => decide (n = ledgerBlobName)) ctrlC10u stor0 loc0 dirC10).err
        = some (.blobUploadError ledgerBlobName) ∧
      (upload_dir (fun n => decide (n = ledgerBlobName)) ctrlC10u stor0 loc0
          dirC10).ctrl.uploadedDirs = upsert ctrlC10u.uploadedDirs dirC10.base dirC10.parent ∧
      alookup (upload_dir (fun n => decide (n = ledgerBlobName)) ctrlC10u stor0 loc0
          dirC10).ctrl.uploadedDirs dirC10.base = some dirC10.parent ∧
      (upload_dir (fun n => decide (n = ledgerBlobName)) ctrlC10u stor0 loc0
          dirC10).loc.scratch = some (upsert ctrlC10u.uploadedDirs dirC10.base dirC10.parent) ∧
      alookup (upload_dir (fun n => decide (n = ledgerBlobName)) ctrlC10u stor0 loc0
          dirC10).stor.blobs ledgerBlobName = alookup stor0.blobs ledgerBlobName) ∧
    (ctrlC10d.containerToken = some "tok") ∧
    (ctrlC10d.containerUrl = some "url") ∧
    (alookup ctrlC10d.uploadedDirs "case" = some ["home"]) ∧
    ((delete_dir (fun n => decide (n = ledgerBlobName)) ctrlC10d storC10 loc0 "case" true).err
        = some (.blobUploadError ledgerBlobName) ∧
      (delete_dir (fun n => decide (n = ledgerBlobName)) ctrlC10d storC10 loc0 "case"
          true).ctrl.uploadedDirs = removeKey ctrlC10d.uploadedDirs "case" ∧
      alookup (delete_dir (fun n => decide (n = ledgerBlobName)) ctrlC10d storC10 loc0 "case"
          true).ctrl.uploadedDirs "case" = none ∧
      (delete_dir (fun n => decide (n = ledgerBlobName)) ctrlC10d storC10 loc0 "case"
          true).loc.scratch = some (removeKey ctrlC10d.uploadedDirs "case") ∧
      alookup (delete_dir (fun n => decide (n = ledgerBlobName)) ctrlC10d storC10 loc0 "case"
          true).stor.blobs ledgerBlobName = alookup storC10.blobs ledgerBlobName) :=
  ⟨rfl, rfl, by decide, by decide,
    c10_nonatomic_ledger_persistence.1 ctrlC10u stor0 loc0 dirC10 "tok" "url"
      rfl rfl (by decide) (by decide),
    rfl, rfl, by decide,
    c10_nonatomic_ledger_persistence.2 ctrlC10d storC10 loc0 "case" ["home"] "tok" "url"
      true rfl rfl (by decide)⟩

/-! ### Shape of a fault-free upload run, and blob-name injectivity -/

theorem cons_seg_injective (base : String) :
    Function.Injective (fun r : List String => base :: r) := by
  intro a b h
  exact ((List.cons.injEq base a base b).mp h).2

theorem append_cons_seg_injective (parent : FPath) (base : String) :
    Function.Injective (fun r : List String => parent ++ base :: r) := by
  intro a b h
  exact ((List.cons.injEq base a base b).mp (List.append_cancel_left h)).2

theorem uploadFiles_append (fail : BlobName → Bool) (entries : List (BlobName × String)) :
    ∀ stor, (∀ e ∈ entries, fail e.1 = false) →
    (entries.map Prod.fst).Nodup →
    (∀ k ∈ entries.map Prod.fst, k ∉ stor.blobs.map Prod.fst) →
    uploadFiles fail stor entries
      = (⟨stor.blobs ++ entries.map (fun e => (e.1, BlobData.file e.2))⟩, none) := by
  induction entries with
  | nil =>
    intro stor _ _ _
    simp [uploadFiles]
  | cons e rest ih =>
    obtain ⟨n, c⟩ := e
    intro stor hf hn hd
    have h1 : fail n = false := hf (n, c) (by simp)
    simp only [List.map_cons, List.nodup_cons] at hn
    have hfresh : n ∉ stor.blobs.map Prod.fst := hd n (by simp)
    have hstep : upsert stor.blobs n (BlobData.file c)
        = stor.blobs ++ [(n, BlobData.file c)] :=
      upsert_of_key_not_mem _ _ _ hfresh
    have hd1 : ∀ k ∈ rest.map Prod.fst,
        k ∉ (stor.blobs ++ [(n, BlobData.file c)]).map Prod.fst := by
      intro k hk
      simp only [List.map_append, List.mem_append, List.map_cons, List.map_nil,
        List.mem_singleton, not_or]
      exact ⟨hd k (by simp [hk]), fun hc => hn.1 (hc ▸ hk)⟩
    have ihc := ih ⟨stor.blobs ++ [(n, BlobData.file c)]⟩
      (fun x hx => hf x (by simp [hx])) hn.2 hd1
    simp only [uploadFiles, h1, Bool.false_eq_true, if_false, hstep]
    rw [ihc]
    simp

theorem upload_dir_noFail_shape (d : LocalDir) (tok url : String)
    (hnodup : (d.files.map Prod.fst).Nodup)
    (hne : ∀ e ∈ d.files, e.1 ≠ ([] : FPath)) :
    upload_dir noFail ⟨some tok, some url, []⟩ stor0 loc0 d
      = ⟨none, ⟨some tok, some url, [(d.base, d.parent)]⟩,
          ⟨d.files.map (fun e => ((d.base :: e.1 : BlobName), BlobData.file e.2))
            ++ [(ledgerBlobName, .pickledLedger [(d.base, d.parent)])]⟩,
          loc0⟩ := by
  have hkeys : (d.files.map (fun e => ((d.base :: e.1 : BlobName), e.2))).map Prod.fst
      = (d.files.map Prod.fst).map (fun r => d.base :: r) := by
    rw [List.map_map, List.map_map]
    rfl
  have hnodup2 : ((d.files.map (fun e => ((d.base :: e.1 : BlobName), e.2))).map
      Prod.fst).Nodup := by
    rw [hkeys]
    exact List.Nodup.map (cons_seg_injective d.base) hnodup
  have hupl := uploadFiles_append noFail
    (d.files.map (fun e => ((d.base :: e.1 : BlobName), e.2))) stor0
    (fun _ _ => rfl) hnodup2 (by intro k _ hk; simp [stor0] at hk)
  have hentry : (d.files.map (fun e => ((d.base :: e.1 : BlobName), e.2))).map
        (fun e => (e.1, BlobData.file e.2))
      = d.files.map (fun e => ((d.base :: e.1 : BlobName), BlobData.file e.2)) := by
    rw [List.map_map]
    rfl
  have hledfresh : ledgerBlobName ∉ (d.files.map
      (fun e => ((d.base :: e.1 : BlobName), BlobData.file e.2))).map Prod.fst := by
    intro hmem
    obtain ⟨e, he, hc⟩ := List.mem_map.mp hmem
    obtain ⟨x, hx, rfl⟩ := List.mem_map.mp he
    simp only [ledgerBlobName, List.cons.injEq] at hc
    exact hne x hx hc.2
  have hputledger : upsert
        (d.files.map (fun e => ((d.base :: e.1 : BlobName), BlobData.file e.2)))
        ledgerBlobName (.pickledLedger [(d.base, d.parent)])
      = d.files.map (fun e => ((d.base :: e.1 : BlobName), BlobData.file e.2))
        ++ [(ledgerBlobName, .pickledLedger [(d.base, d.parent)])] :=
    upsert_of_key_not_mem _ _ _ hledfresh
  simp only [upload_dir, hupl]
  simp [alookup, noFail, upsert, stor0, loc0, hentry, hputledger]

/-- Claim C6 (amended): stage/fetch round trip for directories of at most
50000 files.  Staging a directory (distinct, nonempty relative file paths)
into a fresh mission container uploads each file under the blob name
`base :: rel` — the path of the file relative to the directory's parent, so
the case base name is the blob prefix — records the case in the ledger, and
persists the ledger blob; a subsequent `_download_dir` into an empty local
target succeeds and reproduces exactly the original file set and contents at
the recorded parent-relative paths.  (The claim's original "for every
directory" fails for directories of more than 50000 files, because
`list_blobs` is called with `num_results=50000` and the download loop
therefore misses the remaining blobs; see
`c6_stage_fetch_round_trip_counterexample`.) -/
theorem c6_stage_fetch_round_trip (d : LocalDir) (tok url : String)
    (hnodup : (d.files.map Prod.fst).Nodup)
    (hne : ∀ e ∈ d.files, e.1 ≠ ([] : FPath))
    (hlen : d.files.length ≤ 50000) :
    ∃ stor1,
      upload_dir noFail ⟨some tok, some url, []⟩ stor0 loc0 d
        = ⟨none, ⟨some tok, some url, [(d.base, d.parent)]⟩, stor1, loc0⟩ ∧
      download_dir ⟨some tok, some url, [(d.base, d.parent)]⟩ stor1 loc0 d.base true
        = ⟨none, ⟨some tok, some url, [(d.base, d.parent)]⟩, stor1,
            ⟨none, d.files.map (fun e => (d.parent ++ d.base :: e.1, BlobData.file e.2))⟩⟩ := by
  refine ⟨⟨d.files.map (fun e => ((d.base :: e.1 : BlobName), BlobData.file e.2))
    ++ [(ledgerBlobName, .pickledLedger [(d.base, d.parent)])]⟩,
    upload_dir_noFail_shape d tok url hnodup hne, ?_⟩
  have hfilter : (d.files.map (fun e => ((d.base :: e.1 : BlobName), BlobData.file e.2))
        ++ [(ledgerBlobName,
              BlobData.pickledLedger [(d.base, d.parent)])]).filter
          (fun b => underCasePrefix d.base b.1)
      = d.files.map (fun e => ((d.base :: e.1 : BlobName), BlobData.file e.2)) := by
    rw [List.filter_append]
    have h1 : (d.files.map (fun e => ((d.base :: e.1 : BlobName),
          BlobData.file e.2))).filter (fun b => underCasePrefix d.base b.1)
        = d.files.map (fun e => ((d.base :: e.1 : BlobName), BlobData.file e.2)) := by
      refine List.filter_eq_self.mpr ?_
      intro b hb
      obtain ⟨x, hx, rfl⟩ := List.mem_map.mp hb
      have hx1 := hne x hx
      cases h : x.1 with
      | nil => exact absurd h hx1
      | cons a as => simp [underCasePrefix, h]
    have h2 : [(ledgerBlobName,
          BlobData.pickledLedger [(d.base, d.parent)])].filter
          (fun b => underCasePrefix d.base b.1) = [] := by
      simp [underCasePrefix, ledgerBlobName]
    rw [h1, h2, List.append_nil]
  have htake : listBlobs
      ⟨d.files.map (fun e => ((d.base :: e.1 : BlobName), BlobData.file e.2))
        ++ [(ledgerBlobName, .pickledLedger [(d.base, d.parent)])]⟩ d.base
      = d.files.map (fun e => ((d.base :: e.1 : BlobName), BlobData.file e.2)) := by
    simp only [listBlobs, hfilter]
    exact List.take_of_length_le (by simpa using hlen)
  have hwrites : (d.files.map (fun e => ((d.base :: e.1 : BlobName),
        BlobData.file e.2))).map (fun b => (d.parent ++ b.1, b.2))
      = d.files.map (fun e => (d.parent ++ d.base :: e.1, BlobData.file e.2)) := by
    rw [List.map_map]
    rfl
  have hwkeys : ((d.files.map (fun e => (d.parent ++ d.base :: e.1,
        BlobData.file e.2))).map Prod.fst).Nodup := by
    have heq : (d.files.map (fun e => (d.parent ++ d.base :: e.1,
          BlobData.file e.2))).map Prod.fst
        = (d.files.map Prod.fst).map (fun r => d.parent ++ d.base :: r) := by
      rw [List.map_map, List.map_map]
      rfl
    rw [heq]
    exact List.Nodup.map (append_cons_seg_injective d.parent d.base) hnodup
  have hfold : (d.files.map (fun e => (d.parent ++ d.base :: e.1,
        BlobData.file e.2))).foldl (fun fs e => upsert fs e.1 e.2) loc0.files
      = d.files.map (fun e => (d.parent ++ d.base :: e.1, BlobData.file e.2)) := by
    have := foldl_upsert_append
      (d.files.map (fun e => (d.parent ++ d.base :: e.1, BlobData.file e.2)))
      loc0.files hwkeys (by intro k _ hk; simp [loc0] at hk)
    rw [this]
    simp [loc0]
  have halookup : alookup ([(d.base, d.parent)] : Ledger) d.base = some d.parent := by
    simp [alookup]
  simp only [download_dir, halookup, htake, hwrites, hfold]
  simp [loc0]

/-- Witness for the amended claim C6 at the spec's example: a directory
`/home/case` with files `a.txt` and `sub/b.txt`. -/
theorem c6_stage_fetch_round_trip_witness :
    (((LocalDir.mk ["home"] "case" [(["a.txt"], "A"), (["sub", "b.txt"], "B")]).files.map
        Prod.fst).Nodup) ∧
    (∀ e ∈ (LocalDir.mk ["home"] "case"
        [(["a.txt"], "A"), (["sub", "b.txt"], "B")]).files, e.1 ≠ ([] : FPath)) ∧
    ((LocalDir.mk ["home"] "case"
        [(["a.txt"], "A"), (["sub", "b.txt"], "B")]).files.length ≤ 50000) ∧
    (∃ stor1,
      upload_dir noFail ⟨some "tok", some "url", []⟩ stor0 loc0
          (LocalDir.mk ["home"] "case" [(["a.txt"], "A"), (["sub", "b.txt"], "B")])
        = ⟨none, ⟨some "tok", some "url",
            [((LocalDir.mk ["home"] "case"
                [(["a.txt"], "A"), (["sub", "b.txt"], "B")]).base, ["home"])]⟩,
            stor1, loc0⟩ ∧
      download_dir ⟨some "tok", some "url",
          [((LocalDir.mk ["home"] "case"
              [(["a.txt"], "A"), (["sub", "b.txt"], "B")]).base, ["home"])]⟩ stor1 loc0
          (LocalDir.mk ["home"] "case" [(["a.txt"], "A"), (["sub", "b.txt"], "B")]).base true
        = ⟨none, ⟨some "tok", some "url",
            [((LocalDir.mk ["home"] "case"
                [(["a.txt"], "A"), (["sub", "b.txt"], "B")]).base, ["home"])]⟩, stor1,
            ⟨none, (LocalDir.mk ["home"] "case"
                [(["a.txt"], "A"), (["sub", "b.txt"], "B")]).files.map
              (fun e => (["home"] ++ "case" :: e.1, BlobData.file e.2))⟩⟩) :=
  ⟨by decide, by decide, by decide,
    c6_stage_fetch_round_trip
      (LocalDir.mk ["home"] "case" [(["a.txt"], "A"), (["sub", "b.txt"], "B")])
      "tok" "url" (by decide) (by decide) (by decide)⟩

/-! ### A directory with 50001 files: the listing cap -/

/-- The `i`-th file name: a string of `i + 1` letters `a` (all distinct). -/
def segName (i : Nat) : String := String.mk (List.replicate (i + 1) 'a')

theorem segName_injective : Function.Injective segName := by
  intro i j h
  have hdata : List.replicate (i + 1) 'a' = List.replicate (j + 1) 'a' :=
    congrArg String.data h
  have hlen := congrArg List.length hdata
  simpa using hlen

/-- 50001 distinct one-segment files, all with content `"x"`. -/
def bigFiles : List (FPath × String) :=
  (List.range 50001).map (fun i => ([segName i], "x"))

/-- A local case directory `/home/case` holding the 50001 files. -/
def bigDir : LocalDir := ⟨["home"], "case", bigFiles⟩

theorem bigFiles_fst : bigFiles.map Prod.fst
    = (List.range 50001).map (fun i => [segName i]) := by
  rw [bigFiles, List.map_map]
  rfl

theorem bigFiles_nodup : (bigFiles.map Prod.fst).Nodup := by
  rw [bigFiles_fst]
  refine List.Nodup.map ?_ (List.nodup_range 50001)
  intro i j h
  exact segName_injective (((List.cons.injEq _ _ _ _).mp h).1)

theorem bigFiles_ne_nil : ∀ e ∈ bigFiles, e.1 ≠ ([] : FPath) := by
  intro e he
  obtain ⟨i, _, rfl⟩ := List.mem_map.mp he
  exact List.cons_ne_nil _ _

theorem bigFiles_length : bigFiles.length = 50001 := by
  rw [bigFiles, List.length_map, List.length_range]

theorem staged_filter_eq (d : LocalDir) (hne : ∀ e ∈ d.files, e.1 ≠ ([] : FPath)) :
    (d.files.map (fun e => ((d.base :: e.1 : BlobName), BlobData.file e.2))
        ++ [(ledgerBlobName, BlobData.pickledLedger [(d.base, d.parent)])]).filter
      (fun b => underCasePrefix d.base b.1)
    = d.files.map (fun e => ((d.base :: e.1 : BlobName), BlobData.file e.2)) := by
  rw [List.filter_append]
  have h1 : (d.files.map (fun e => ((d.base :: e.1 : BlobName),
        BlobData.file e.2))).filter (fun b => underCasePrefix d.base b.1)
      = d.files.map (fun e => ((d.base :: e.1 : BlobName), BlobData.file e.2)) := by
    refine List.filter_eq_self.mpr ?_
    intro b hb
    obtain ⟨x, hx, rfl⟩ := List.mem_map.mp hb
    have hx1 := hne x hx
    cases h : x.1 with
    | nil => exact absurd h hx1
    | cons a as => simp [underCasePrefix, h]
  have h2 : [(ledgerBlobName,
        BlobData.pickledLedger [(d.base, d.parent)])].filter
        (fun b => underCasePrefix d.base b.1) = [] := by
    simp [underCasePrefix, ledgerBlobName]
  rw [h1, h2, List.append_nil]

theorem bigDir_files : bigDir.files = bigFiles := by
  simp only [bigDir]

theorem bigDir_files_nodup : (bigDir.files.map Prod.fst).Nodup := by
  rw [bigDir_files]
  exact bigFiles_nodup

theorem bigDir_files_ne_nil : ∀ e ∈ bigDir.files, e.1 ≠ ([] : FPath) := by
  rw [bigDir_files]
  exact bigFiles_ne_nil

theorem bigDir_files_length : bigDir.files.length = 50001 := by
  rw [bigDir_files]
  exact bigFiles_length

set_option maxRecDepth 8000 in
/-- Counterexample to claim C6 as stated (quantified over every directory of
files): for a directory of 50001 files, the stage succeeds and uploads all
50001 blobs, but the subsequent fetch lists the blobs under the case prefix
with the 50000-result cap (`num_results=50000`), downloads only 50000 files,
and therefore does not reproduce the original file set. -/
theorem c6_stage_fetch_round_trip_counterexample :
    (bigDir.files.map Prod.fst).Nodup ∧
    (∀ e ∈ bigDir.files, e.1 ≠ ([] : FPath)) ∧
    bigDir.files.length = 50001 ∧
    (upload_dir noFail ⟨some "tok", some "url", []⟩ stor0 loc0 bigDir).err = none ∧
    (download_dir (upload_dir noFail ⟨some "tok", some "url", []⟩ stor0 loc0 bigDir).ctrl
        (upload_dir noFail ⟨some "tok", some "url", []⟩ stor0 loc0 bigDir).stor
        loc0 bigDir.base true).loc.files.length = 50000 ∧
    (download_dir (upload_dir noFail ⟨some "tok", some "url", []⟩ stor0 loc0 bigDir).ctrl
        (upload_dir noFail ⟨some "tok", some "url", []⟩ stor0 loc0 bigDir).stor
        loc0 bigDir.base true).loc.files
      ≠ bigDir.files.map (fun e => (bigDir.parent ++ bigDir.base :: e.1,
          BlobData.file e.2)) := by
  have hupl := upload_dir_noFail_shape bigDir "tok" "url" bigDir_files_nodup
    bigDir_files_ne_nil
  have hfilter := staged_filter_eq bigDir bigDir_files_ne_nil
  have hlist : listBlobs
      ⟨bigDir.files.map (fun e => ((bigDir.base :: e.1 : BlobName), BlobData.file e.2))
        ++ [(ledgerBlobName, .pickledLedger [(bigDir.base, bigDir.parent)])]⟩ bigDir.base
      = (bigDir.files.map (fun e => ((bigDir.base :: e.1 : BlobName),
          BlobData.file e.2))).take 50000 := by
    simp only [listBlobs, hfilter]
  have hwrites : ((bigDir.files.map (fun e => ((bigDir.base :: e.1 : BlobName),
        BlobData.file e.2))).take 50000).map (fun b => (bigDir.parent ++ b.1, b.2))
      = (bigDir.files.map (fun e => (bigDir.parent ++ bigDir.base :: e.1,
          BlobData.file e.2))).take 50000 := by
    rw [List.map_take, List.map_map]
    rfl
  have hwkeysfull : ((bigDir.files.map (fun e => (bigDir.parent ++ bigDir.base :: e.1,
        BlobData.file e.2))).map Prod.fst).Nodup := by
    have heq : (bigDir.files.map (fun e => (bigDir.parent ++ bigDir.base :: e.1,
          BlobData.file e.2))).map Prod.fst
        = (bigDir.files.map Prod.fst).map (fun r => bigDir.parent ++ bigDir.base :: r) := by
      rw [List.map_map, List.map_map]
      rfl
    rw [heq]
    exact List.Nodup.map (append_cons_seg_injective _ _) bigDir_files_nodup
  have hwkeys : (((bigDir.files.map (fun e => (bigDir.parent ++ bigDir.base :: e.1,
        BlobData.file e.2))).take 50000).map Prod.fst).Nodup := by
    rw [List.map_take]
    exact List.Nodup.sublist (List.take_sublist _ _) hwkeysfull
  have hfold := foldl_upsert_append _ loc0.files hwkeys
    (by intro k _ hk; simp [loc0] at hk)
  have halookup : alookup ([(bigDir.base, bigDir.parent)] : Ledger) bigDir.base
      = some bigDir.parent := by
    simp [alookup]
  have hdl : download_dir ⟨some "tok", some "url", [(bigDir.base, bigDir.parent)]⟩
      ⟨bigDir.files.map (fun e => ((bigDir.base :: e.1 : BlobName), BlobData.file e.2))
        ++ [(ledgerBlobName, .pickledLedger [(bigDir.base, bigDir.parent)])]⟩
      loc0 bigDir.base true
      = ⟨none, ⟨some "tok", some "url", [(bigDir.base, bigDir.parent)]⟩,
          ⟨bigDir.files.map (fun e => ((bigDir.base :: e.1 : BlobName), BlobData.file e.2))
            ++ [(ledgerBlobName, .pickledLedger [(bigDir.base, bigDir.parent)])]⟩,
          ⟨none, (bigDir.files.map (fun e => (bigDir.parent ++ bigDir.base :: e.1,
            BlobData.file e.2))).take 50000⟩⟩ := by
    simp only [download_dir, halookup, hlist, hwrites, hfold]
    simp [loc0]
  refine ⟨bigDir_files_nodup, bigDir_files_ne_nil, bigDir_files_length, ?_, ?_, ?_⟩
  · rw [hupl]
  · rw [hupl]
    simp only [hdl]
    simp only [List.length_take, List.length_map, bigDir_files_length]
    omega
  · rw [hupl]
    simp only [hdl]
    intro heq
    have hl := congrArg List.length heq
    simp only [List.length_take, List.length_map, bigDir_files_length] at hl
    omega

theorem filter_key_upsert {κ β : Type} [DecidableEq κ] (P : κ → Bool) (l : List (κ × β))
    (k : κ) (v : β) (hP : P k = false) :
    (upsert l k v).filter (fun e => P e.1) = l.filter (fun e => P e.1) := by
  induction l with
  | nil => simp [upsert, hP]
  | cons e rest ih =>
    by_cases he : e.1 = k
    · simp [upsert, he, List.filter_cons, hP]
    · simp [upsert, he, List.filter_cons, ih]

theorem underCasePrefix_ledger_false (b : String) :
    underCasePrefix b ledgerBlobName = false := by
  simp [underCasePrefix, ledgerBlobName]

/-- Claim C7 (amended): purge for cases with at most 50000 blobs under the
prefix.  For a case base name present in the ledger (and an established
session), `_delete_dir` deletes every blob under the `{base}/` prefix,
removes the case entry from the in-memory ledger, and re-persists the
serialized ledger to the `uploaded_dirs.dat` blob: afterwards the ledger no
longer contains the case and no blobs remain under its prefix.  (The
claim's unrestricted "however many there are" fails when more than 50000
blobs sit under the prefix, because the deletion loop iterates over a
listing capped at `num_results=50000`; see
`c7_purge_directory_counterexample`.) -/
theorem c7_purge_directory (ctrl : CtrlState) (stor : StorageState) (loc : LocalFS)
    (b : String) (p : FPath) (tok url : String) (ig : Bool)
    (ht : ctrl.containerToken = some tok) (hu : ctrl.containerUrl = some url)
    (hpresent : alookup ctrl.uploadedDirs b = some p)
    (hlen : (stor.blobs.filter (fun e => underCasePrefix b e.1)).length ≤ 50000) :
    (delete_dir noFail ctrl stor loc b ig).err = none ∧
    alookup (delete_dir noFail ctrl stor loc b ig).ctrl.uploadedDirs b = none ∧
    (delete_dir noFail ctrl stor loc b ig).ctrl.uploadedDirs
      = removeKey ctrl.uploadedDirs b ∧
    (delete_dir noFail ctrl stor loc b ig).stor.blobs.filter
      (fun e => underCasePrefix b e.1) = [] ∧
    alookup (delete_dir noFail ctrl stor loc b ig).stor.blobs ledgerBlobName
      = some (.pickledLedger (removeKey ctrl.uploadedDirs b)) := by
  have hall : listBlobs stor b = stor.blobs.filter (fun e => underCasePrefix b e.1) := by
    simp only [listBlobs]
    exact List.take_of_length_le hlen
  have hnil : ((listBlobs stor b).foldl (fun bs blob => removeKey bs blob.1)
      stor.blobs).filter (fun e => underCasePrefix b e.1) = [] := by
    rw [foldl_removeKey_filter, List.filter_filter]
    refine List.filter_eq_nil_iff.mpr ?_
    intro e he hcontra
    simp only [Bool.and_eq_true, decide_eq_true_eq] at hcontra
    refine hcontra.2 ?_
    rw [hall]
    exact List.mem_map_of_mem Prod.fst (List.mem_filter.mpr ⟨he, hcontra.1⟩)
  have hresult : (delete_dir noFail ctrl stor loc b ig)
      = ⟨none, { ctrl with uploadedDirs := removeKey ctrl.uploadedDirs b },
          ⟨upsert ((listBlobs stor b).foldl (fun bs blob => removeKey bs blob.1) stor.blobs)
            ledgerBlobName (.pickledLedger (removeKey ctrl.uploadedDirs b))⟩,
          { loc with scratch := none }⟩ := by
    simp [delete_dir, ht, hu, hpresent, noFail]
  rw [hresult]
  refine ⟨rfl, ?_, rfl, ?_, ?_⟩
  · exact alookup_removeKey_self ctrl.uploadedDirs b
  · rw [filter_key_upsert _ _ _ _ (underCasePrefix_ledger_false b)]
    exact hnil
  · exact alookup_upsert_self _ _ _

/-- Witness for the amended claim C7: purging a case with one data blob and
the ledger blob in the container. -/
theorem c7_purge_directory_witness :
    (ctrlC10d.containerToken = some "tok") ∧
    (ctrlC10d.containerUrl = some "url") ∧
    (alookup ctrlC10d.uploadedDirs "case" = some ["home"]) ∧
    ((storC10.blobs.filter (fun e => underCasePrefix "case" e.1)).length ≤ 50000) ∧
    ((delete_dir noFail ctrlC10d storC10 loc0 "case" true).err = none ∧
      alookup (delete_dir noFail ctrlC10d storC10 loc0 "case"
        true).ctrl.uploadedDirs "case" = none ∧
      (delete_dir noFail ctrlC10d storC10 loc0 "case" true).ctrl.uploadedDirs
        = removeKey ctrlC10d.uploadedDirs "case" ∧
      (delete_dir noFail ctrlC10d storC10 loc0 "case" true).stor.blobs.filter
        (fun e => underCasePrefix "case" e.1) = [] ∧
      alookup (delete_dir noFail ctrlC10d storC10 loc0 "case" true).stor.blobs
        ledgerBlobName = some (.pickledLedger (removeKey ctrlC10d.uploadedDirs "case"))) :=
  ⟨rfl, rfl, by decide, by decide,
    c7_purge_directory ctrlC10d storC10 loc0 "case" ["home"] "tok" "url" true
      rfl rfl (by decide) (by decide)⟩

/-! ### A container with 50001 blobs under one case prefix -/

/-- 50001 distinct blobs under the prefix `case/`. -/
def bigBlobs : List (BlobName × BlobData) :=
  (List.range 50001).map (fun i => ((["case", segName i] : BlobName), BlobData.file "x"))

/-- The mission container holding the 50001 blobs. -/
def storBig : StorageState := ⟨bigBlobs⟩

/-- Controller with an established session whose ledger holds `"case"`. -/
def ctrlBig : CtrlState := ⟨some "tok", some "url", [("case", ["home"])]⟩

theorem storBig_blobs : storBig.blobs = bigBlobs := by
  simp only [storBig]

theorem mem_upsert_of_key_ne {κ β : Type} [DecidableEq κ] (l : List (κ × β)) (k : κ)
    (v : β) (e : κ × β) (he : e ∈ l) (hne : e.1 ≠ k) : e ∈ upsert l k v := by
  induction l with
  | nil => cases he
  | cons x rest ih =>
    by_cases hx : x.1 = k
    · rcases List.mem_cons.mp he with rfl | h
      · exact absurd hx hne
      · simp only [upsert, hx, if_pos rfl]
        exact List.mem_cons_of_mem _ h
    · rcases List.mem_cons.mp he with rfl | h
      · simp [upsert, hx]
      · simp only [upsert, if_neg hx]
        exact List.mem_cons_of_mem _ (ih h)

theorem bigBlobs_filter :
    bigBlobs.filter (fun e => underCasePrefix "case" e.1) = bigBlobs := by
  refine List.filter_eq_self.mpr ?_
  intro b hb
  simp only [bigBlobs] at hb
  obtain ⟨i, _, rfl⟩ := List.mem_map.mp hb
  simp [underCasePrefix]

theorem bigBlobs_split : bigBlobs
    = (List.range 50000).map (fun i => ((["case", segName i] : BlobName), BlobData.file "x"))
      ++ [((["case", segName 50000] : BlobName), BlobData.file "x")] := by
  have h1 : (50001 : Nat) = 50000 + 1 := by norm_num
  rw [bigBlobs, h1, List.range_succ, List.map_append]
  rfl

theorem listBlobs_storBig : listBlobs storBig "case"
    = (List.range 50000).map
        (fun i => ((["case", segName i] : BlobName), BlobData.file "x")) := by
  simp only [listBlobs, storBig_blobs, bigBlobs_filter]
  rw [bigBlobs_split]
  refine List.take_left' ?_
  simp

theorem lastBlob_key_not_listed :
    (["case", segName 50000] : BlobName)
      ∉ ((List.range 50000).map (fun i => ((["case", segName i] : BlobName),
          BlobData.file "x"))).map Prod.fst := by
  intro hmem
  obtain ⟨e, he, hkey⟩ := List.mem_map.mp hmem
  obtain ⟨i, hi, rfl⟩ := List.mem_map.mp he
  simp only [List.cons.injEq, and_true, true_and] at hkey
  have hii : i = 50000 := segName_injective hkey
  subst hii
  exact absurd (List.mem_range.mp hi) (by omega)

set_option maxRecDepth 8000 in
theorem mem_removeKey_of_key_ne {κ β : Type} [DecidableEq κ] (l : List (κ × β)) (k : κ)
    (e : κ × β) (he : e ∈ l) (hne : e.1 ≠ k) : e ∈ removeKey l k := by
  induction l with
  | nil => cases he
  | cons x rest ih =>
    by_cases hx : x.1 = k
    · rcases List.mem_cons.mp he with rfl | h
      · exact absurd hx hne
      · simp only [removeKey, if_pos hx]
        exact ih h
    · rcases List.mem_cons.mp he with rfl | h
      · simp [removeKey, hx]
      · simp only [removeKey, if_neg hx]
        exact List.mem_cons_of_mem _ (ih h)

theorem mem_foldl_removeKey {κ β γ : Type} [DecidableEq κ] (bs : List (κ × γ)) :
    ∀ (l : List (κ × β)) (e : κ × β), e ∈ l → (∀ b ∈ bs, b.1 ≠ e.1) →
    e ∈ bs.foldl (fun acc b => removeKey acc b.1) l := by
  induction bs with
  | nil =>
    intro l e he _
    simpa using he
  | cons b rest ih =>
    intro l e he hk
    simp only [List.foldl_cons]
    exact ih _ e (mem_removeKey_of_key_ne l b.1 e he (Ne.symm (hk b (by simp))))
      (fun x hx => hk x (List.mem_cons_of_mem _ hx))

/-- Counterexample to claim C7 as stated ("however many there are"): for a
case with 50001 blobs under its prefix, `_delete_dir` succeeds and removes
the ledger entry, but it deletes only the blobs in the 50000-capped listing
(`num_results=50000`), so a blob remains under the case prefix afterwards. -/
theorem c7_purge_directory_counterexample :
    (alookup ctrlBig.uploadedDirs "case" = some ["home"]) ∧
    (storBig.blobs.filter (fun e => underCasePrefix "case" e.1)).length = 50001 ∧
    (delete_dir noFail ctrlBig storBig loc0 "case" true).err = none ∧
    alookup (delete_dir noFail ctrlBig storBig loc0 "case" true).ctrl.uploadedDirs "case"
      = none ∧
    (delete_dir noFail ctrlBig storBig loc0 "case" true).stor.blobs.filter
      (fun e => underCasePrefix "case" e.1) ≠ [] := by
  have ht : ctrlBig.containerToken = some "tok" := rfl
  have hu : ctrlBig.containerUrl = some "url" := rfl
  have halookup : alookup ctrlBig.uploadedDirs "case" = some ["home"] := by
    simp [ctrlBig, alookup]
  have hlen : (storBig.blobs.filter
      (fun e => underCasePrefix "case" e.1)).length = 50001 := by
    rw [storBig_blobs, bigBlobs_filter, bigBlobs]
    simp
  have herr : (delete_dir noFail ctrlBig storBig loc0 "case" true).err = none := by
    simp [delete_dir, ht, hu, halookup, noFail]
  have hled : (delete_dir noFail ctrlBig storBig loc0 "case" true).ctrl.uploadedDirs
      = removeKey ctrlBig.uploadedDirs "case" := by
    simp [delete_dir, ht, hu, halookup, noFail]
  have hblobs : (delete_dir noFail ctrlBig storBig loc0 "case" true).stor.blobs
      = upsert ((listBlobs storBig "case").foldl (fun bs blob => removeKey bs blob.1)
          storBig.blobs) ledgerBlobName
          (.pickledLedger (removeKey ctrlBig.uploadedDirs "case")) := by
    simp [delete_dir, ht, hu, halookup, noFail]
  refine ⟨halookup, hlen, herr, ?_, ?_⟩
  · rw [hled]
    exact alookup_removeKey_self ctrlBig.uploadedDirs "case"
  · rw [hblobs]
    intro hnil
    have hlast_in_big : ((["case", segName 50000] : BlobName), BlobData.file "x")
        ∈ storBig.blobs := by
      rw [storBig_blobs, bigBlobs_split]
      exact List.mem_append_right _ (by simp)
    have hnotdel : ∀ b ∈ listBlobs storBig "case",
        b.1 ≠ (["case", segName 50000] : BlobName) := by
      rw [listBlobs_storBig]
      intro b hb hc
      exact lastBlob_key_not_listed (hc ▸ List.mem_map_of_mem Prod.fst hb)
    have h2 := mem_foldl_removeKey (listBlobs storBig "case") storBig.blobs
      (((["case", segName 50000] : BlobName), BlobData.file "x")) hlast_in_big hnotdel
    have h3 := mem_upsert_of_key_ne _ ledgerBlobName
      (BlobData.pickledLedger (removeKey ctrlBig.uploadedDirs "case")) _ h2
      (by simp [ledgerBlobName])
    have h4 : ((["case", segName 50000] : BlobName), BlobData.file "x")
        ∈ (upsert ((listBlobs storBig "case").foldl (fun bs blob => removeKey bs blob.1)
            storBig.blobs) ledgerBlobName
            (.pickledLedger (removeKey ctrlBig.uploadedDirs "case"))).filter
          (fun e => underCasePrefix "case" e.1) := by
      refine List.mem_filter.mpr ⟨?_, ?_⟩
      · exact h3
      · simp [underCasePrefix]
    exact List.ne_nil_of_mem h4 hnil
